import Mathlib

/-
Verification development for the nexus-args-validator repository.

The development shallowly embeds the repository's core TypeScript code:
the async-aware left-fold reduceAsync (src/utils.ts, with the variant of
the same function found in the repository's second snapshot of utils),
the generic tree walker mapObject / mapObjectHelper, the validator and
transformer combinators (src/validators.ts, src/transformers.ts), the
orchestrator functions findErrors / applyTransforms and the plugin's
field-resolution middleware (src/index.ts).  JavaScript runtime values
are modelled by the first-order type JSVal; promises are modelled by
MaybePromise, a deterministic tag distinguishing an immediately available
value from a deferred one (the eventual value of every promise in this
single-threaded code is determined, so a promise is just a tagged value).
-/

namespace NexusArgsValidator

/-- JavaScript runtime values, as far as the embedded code observes them:
undefined, null, NaN, booleans, numbers, strings, arrays and plain objects
(ordered string-keyed fields, first occurrence of a key is the binding). -/
inductive JSVal where
  | undefined
  | null
  | nan
  | bool (b : Bool)
  | num (n : Int)
  | str (s : String)
  | arr (elems : List JSVal)
  | obj (fields : List (String × JSVal))

/-- JavaScript truthiness of a value. -/
def jsTruthy : JSVal → Bool
  | .undefined => false
  | .null => false
  | .nan => false
  | .bool b => b
  | .num n => n != 0
  | .str s => !s.isEmpty
  | .arr _ => true
  | .obj _ => true

/-- Property read `o[k]`: first field with key k of an object, undefined
otherwise (the embedded code only reads properties of objects or of values
it has already checked for truthiness). -/
def getProp : JSVal → String → JSVal
  | .obj fields, k => (((fields.find? (fun p => p.1 = k)).map (fun p => p.2)).getD .undefined)
  | _, _ => .undefined

/-- Replace the binding of k in an ordered field list (keeping its position),
or append a new binding, as JavaScript property assignment does. -/
def setFields (fields : List (String × JSVal)) (k : String) (v : JSVal) :
    List (String × JSVal) :=
  match fields with
  | [] => [(k, v)]
  | (k', v') :: rest => if k' = k then (k, v) :: rest else (k', v') :: setFields rest k v

/-- Property write `o[k] = v`.  On a non-object the write is dropped (such a
write is never reached by the embedded code on the inputs of the theorems). -/
def jsSet (o : JSVal) (k : String) (v : JSVal) : JSVal :=
  match o with
  | .obj fields => .obj (setFields fields k v)
  | other => other

/-- Array push `acc.push(v)`. -/
def jsPush (acc : JSVal) (v : JSVal) : JSVal :=
  match acc with
  | .arr elems => .arr (elems ++ [v])
  | other => other

/-- Length of an array value (`acc.length`). -/
def jsArrLen : JSVal → Nat
  | .arr elems => elems.length
  | _ => 0

/-- Strict equality with undefined (`x === undefined`). -/
def isUndefined : JSVal → Bool
  | .undefined => true
  | _ => false

/-- Loose equality with undefined (`x == undefined`), which also accepts null. -/
def jsLooseUndefined : JSVal → Bool
  | .undefined => true
  | .null => true
  | _ => false

/-- JavaScript addition restricted to what the embedded scenarios need:
number plus number adds, anything involving undefined or another
non-number is NaN. -/
def jsAdd : JSVal → JSVal → JSVal
  | .num a, .num b => .num (a + b)
  | _, _ => .nan

/-- Comparison `arg > n` for a number bound n; non-numbers compare false
(the built-in validators only reach this with numeric arguments). -/
def jsGTnum : JSVal → Int → Bool
  | .num a, n => n < a
  | _, _ => false

/-- Comparison `arg < n` for a number bound n. -/
def jsLTnum : JSVal → Int → Bool
  | .num a, n => a < n
  | _, _ => false

/-- Characters trimmed by String.prototype.trim (the whitespace actually
appearing in the scenarios). -/
def isJsSpace (c : Char) : Bool :=
  c = ' ' || c = '\t' || c = '\n' || c = '\r'

/-- String.prototype.trim on the underlying character list. -/
def trimString (s : String) : String :=
  ⟨((s.toList.dropWhile isJsSpace).reverse.dropWhile isJsSpace).reverse⟩

/-- String.prototype.toLowerCase on the underlying character list. -/
def lowerString (s : String) : String :=
  ⟨s.toList.map Char.toLower⟩

/-- String.prototype.startsWith via character lists. -/
def strStartsWith (s pre : String) : Bool :=
  pre.toList.isPrefixOf s.toList

/-- String.prototype.endsWith via character lists. -/
def strEndsWith (s post : String) : Bool :=
  post.toList.reverse.isPrefixOf s.toList.reverse

/-- Value-level `arg.startsWith(p)`; false on non-strings (never reached). -/
def jsStartsWith : JSVal → String → Bool
  | .str s, p => strStartsWith s p
  | _, _ => false

/-- Value-level `arg.endsWith(p)`; false on non-strings (never reached). -/
def jsEndsWith : JSVal → String → Bool
  | .str s, p => strEndsWith s p
  | _, _ => false

/-- A MaybePromise value: either immediately available (now) or a promise
that will resolve to the given value (later).  Every promise produced by
the embedded single-threaded code has a determined eventual value, so this
tagged representation is faithful. -/
inductive MaybePromise (α : Type) where
  | now (a : α)
  | later (a : α)

/-- Value a MaybePromise settles to (what awaiting / Promise.all delivers). -/
def MaybePromise.resolve {α : Type} : MaybePromise α → α
  | .now a => a
  | .later a => a

/-- isPromiseLike check from nexus used by the source. -/
def MaybePromise.isPromiseLike {α : Type} : MaybePromise α → Bool
  | .now _ => false
  | .later _ => true

/-- Wrap a leaf rule so that it returns the same result deferred by one
microtask (used to compare synchronous and deferred runs of a scenario). -/
def deferOne (f : JSVal → MaybePromise JSVal) : JSVal → MaybePromise JSVal :=
  fun v => .later (f v).resolve

/-- Type with a distinguished representative of JavaScript's undefined,
so the fold below can be stated both for plain values and for heap values. -/
class JSUndefined (V : Type) where
  undefinedVal : V

instance : JSUndefined JSVal := ⟨.undefined⟩

/-- Pure-value form of assignObjectAt (src/utils.ts): write value at the
(non-empty) access path into obj, materialising missing or falsy
intermediate objects as fresh empty objects. -/
def assignObjectAt (o : JSVal) (accessKey : List String) (value : JSVal) : JSVal :=
  match accessKey with
  | [] => o
  | [k] => jsSet o k value
  | k :: rest =>
      let child := getProp o k
      let child' := if jsTruthy child then child else .obj []
      jsSet o k (assignObjectAt child' rest value)

/-- JavaScript array element assignment `a[i] = v`: overwrite in bounds,
extend (padding any gap with undefined) when out of bounds. -/
def jsArraySet {V : Type} [JSUndefined V] (l : List V) (i : Nat) (v : V) : List V :=
  if i < l.length then l.set i v
  else l ++ List.replicate (i - l.length) JSUndefined.undefinedVal ++ [v]

/-- Loop filling restArrMaybePromises in the deferred branch of reduceAsync
as shipped in src/utils.ts: the element for index j is stored at position
j - i - 1, overwriting the first pending result (position 0) when j = i+1.
Promise.all's resolution is applied on the fly (each evaluate result is
stored settled). -/
def reduceAsyncFill {T V : Type} [JSUndefined V]
    (evaluate : V → T → Nat → MaybePromise V) (acc : V) (i : Nat) :
    List T → Nat → List V → List V
  | [], _, arrAcc => arrAcc
  | t :: ts, j, arrAcc =>
      reduceAsyncFill evaluate acc i ts (j + 1)
        (jsArraySet arrAcc (j - i - 1) (evaluate acc t j).resolve)

/-- Loop filling restArrMaybePromises in the deferred branch of the second
snapshot's reduceAsync: the element for index j is stored at position j - i,
after the first pending result. -/
def reduceAsyncFillP004 {T V : Type} [JSUndefined V]
    (evaluate : V → T → Nat → MaybePromise V) (acc : V) (i : Nat) :
    List T → Nat → List V → List V
  | [], _, arrAcc => arrAcc
  | t :: ts, j, arrAcc =>
      reduceAsyncFillP004 evaluate acc i ts (j + 1)
        (jsArraySet arrAcc (j - i) (evaluate acc t j).resolve)

/-- Replay loop of reduceAsync's deferred branch (identical text in both
snapshots): for j from i to the end, feed restArr[j - i] to the callback,
returning the early result as soon as returnEarly was invoked.  An
out-of-bounds read yields undefined, as in JavaScript.  The callback is
modelled as returning the new accumulator together with the value passed
to returnEarly, if any. -/
def reduceAsyncReplay {V : Type} [JSUndefined V]
    (callback : V → V → Nat → V × Option V) (restArr : List V) (i : Nat) :
    Nat → Nat → V → V
  | 0, _, acc => acc
  | count + 1, j, acc =>
      match callback acc (restArr.getD (j - i) JSUndefined.undefinedVal) j with
      | (_, some e) => e
      | (acc', none) => reduceAsyncReplay callback restArr i count (j + 1) acc'

/-- Main loop of reduceAsync as shipped in src/utils.ts.  Items are
processed in order; a synchronous evaluate result is combined immediately
(honouring returnEarly); the first deferred result switches to the
deferred branch: all remaining items are dispatched eagerly with the
current accumulator, and the callback is replayed over the filled array.
The deferred branch returns the replayed accumulator directly, without
applying manipulateReturn. -/
def reduceAsyncLoop {T V : Type} [JSUndefined V]
    (evaluate : V → T → Nat → MaybePromise V)
    (callback : V → V → Nat → V × Option V)
    (manipulateReturn : Option (V → MaybePromise V)) :
    List T → Nat → V → MaybePromise V
  | [], _, acc =>
      match manipulateReturn with
      | some f => f acc
      | none => .now acc
  | item :: rest, i, acc =>
      match evaluate acc item i with
      | .later v =>
          .later (reduceAsyncReplay callback
            (reduceAsyncFill evaluate acc i rest (i + 1) [v]) i (rest.length + 1) i acc)
      | .now v =>
          match callback acc v i with
          | (_, some e) => .now e
          | (acc', none) => reduceAsyncLoop evaluate callback manipulateReturn rest (i + 1) acc'

/-- reduceAsync of src/utils.ts. -/
def reduceAsync {T V : Type} [JSUndefined V] (array : List T)
    (evaluate : V → T → Nat → MaybePromise V)
    (callback : V → V → Nat → V × Option V)
    (initialValue : V)
    (manipulateReturn : Option (V → MaybePromise V)) : MaybePromise V :=
  reduceAsyncLoop evaluate callback manipulateReturn array 0 initialValue

/-- Main loop of the second snapshot's reduceAsync; it differs from
reduceAsyncLoop only in the position at which the deferred branch stores
the remaining evaluate results. -/
def reduceAsyncLoopP004 {T V : Type} [JSUndefined V]
    (evaluate : V → T → Nat → MaybePromise V)
    (callback : V → V → Nat → V × Option V)
    (manipulateReturn : Option (V → MaybePromise V)) :
    List T → Nat → V → MaybePromise V
  | [], _, acc =>
      match manipulateReturn with
      | some f => f acc
      | none => .now acc
  | item :: rest, i, acc =>
      match evaluate acc item i with
      | .later v =>
          .later (reduceAsyncReplay callback
            (reduceAsyncFillP004 evaluate acc i rest (i + 1) [v]) i (rest.length + 1) i acc)
      | .now v =>
          match callback acc v i with
          | (_, some e) => .now e
          | (acc', none) => reduceAsyncLoopP004 evaluate callback manipulateReturn rest (i + 1) acc'

/-- reduceAsync of the repository's second utils snapshot. -/
def reduceAsyncP004 {T V : Type} [JSUndefined V] (array : List T)
    (evaluate : V → T → Nat → MaybePromise V)
    (callback : V → V → Nat → V × Option V)
    (initialValue : V)
    (manipulateReturn : Option (V → MaybePromise V)) : MaybePromise V :=
  reduceAsyncLoopP004 evaluate callback manipulateReturn array 0 initialValue

/-- Nullability strategies of defineValidator (src/validators.ts). -/
inductive NullStrat where
  | normal
  | strict
  | strictWithNull

/-- JavaScript `error || x` where error is the optional override argument:
undefined or a falsy override falls through to x. -/
def errOr (error : Option JSVal) (x : JSVal) : JSVal :=
  match error with
  | some e => if jsTruthy e then e else x
  | none => x

/-- Truthiness of `errorOrPassCondition(arg)` as tested by defineValidator:
a synchronous boolean is itself, while a pending promise object is truthy. -/
def mpCondTruthy : MaybePromise Bool → Bool
  | .now b => b
  | .later _ => true

/-- Truthiness of `!errorOrPassCondition(arg)`: negation of a synchronous
boolean, and false on a pending promise object. -/
def mpCondNegTruthy : MaybePromise Bool → Bool
  | .now b => !b
  | .later _ => false

/-- Condition test and error construction shared by every branch of
defineValidator; returns the error pair on failure and undefined on pass. -/
def defineValidatorCheck (errorCode : String)
    (errorOrPassCondition : JSVal → MaybePromise Bool)
    (extras : JSVal) (takeErrorCondition : Bool) (arg : JSVal) : MaybePromise JSVal :=
  if (if takeErrorCondition then mpCondTruthy (errorOrPassCondition arg)
      else mpCondNegTruthy (errorOrPassCondition arg))
  then .now (.arr [.str errorCode, extras])
  else .now .undefined

/-- defineValidator (src/validators.ts): nullability preprocessing followed
by the condition test.  Under the default (normal) strategy a null or
undefined argument passes before the condition is consulted; under
strict-with-null an undefined argument is normalised to null first. -/
def defineValidator (errorCode : String)
    (errorOrPassCondition : JSVal → MaybePromise Bool)
    (extras : JSVal) (takeErrorCondition : Bool)
    (nullabilityStrategy : Option NullStrat) : JSVal → MaybePromise JSVal :=
  fun arg =>
    match nullabilityStrategy with
    | none | some .normal =>
        match arg with
        | .null => .now .undefined
        | .undefined => .now .undefined
        | a => defineValidatorCheck errorCode errorOrPassCondition extras takeErrorCondition a
    | some .strictWithNull =>
        defineValidatorCheck errorCode errorOrPassCondition extras takeErrorCondition
          (match arg with | .undefined => .null | a => a)
    | some .strict =>
        defineValidatorCheck errorCode errorOrPassCondition extras takeErrorCondition arg

/-- orValidators (src/validators.ts): fold the validators with reduceAsync;
the moment one returns strictly undefined, return early with undefined
(no error); otherwise collect the failures, and at the end return
undefined if none failed, else the override error or the collected array. -/
def orValidators (validators : List (JSVal → MaybePromise JSVal))
    (error : Option JSVal) : JSVal → MaybePromise JSVal :=
  fun arg =>
    reduceAsync validators
      (fun _ validator _ => validator arg)
      (fun acc validationResult _ =>
        if isUndefined validationResult then (acc, some .undefined)
        else (jsPush acc validationResult, none))
      (.arr [])
      (some (fun acc => .now (if jsArrLen acc = 0 then .undefined else errOr error acc)))

/-- andValidators (src/validators.ts): fold the validators with reduceAsync;
a result loosely unequal to undefined is a failure.  With abortEarly the
fold returns early with the override error or that failure; without it the
failure is collected (returning early with the override error when one is
supplied).  The final accumulator yields undefined when empty, else the
override error or the collected array. -/
def andValidators (validators : List (JSVal → MaybePromise JSVal))
    (abortEarly : Bool) (error : Option JSVal) : JSVal → MaybePromise JSVal :=
  fun arg =>
    reduceAsync validators
      (fun _ validator _ => validator arg)
      (fun acc validationResult _ =>
        if !(jsLooseUndefined validationResult) then
          if abortEarly then (acc, some (errOr error validationResult))
          else
            match error with
            | some e => (jsPush acc validationResult, if jsTruthy e then some e else none)
            | none => (jsPush acc validationResult, none)
        else (acc, none))
      (.arr [])
      (some (fun acc => .now (if jsArrLen acc = 0 then .undefined else errOr error acc)))

/-- Error value produced by the max validator at bound n. -/
def maxError (n : Int) : JSVal := .arr [.str "max", .obj [("n", .num n)]]

/-- Error value produced by the min validator at bound n. -/
def minError (n : Int) : JSVal := .arr [.str "min", .obj [("n", .num n)]]

/-- Built-in validator max (src/validators.ts): fails when arg > n. -/
def max (n : Int) : JSVal → MaybePromise JSVal :=
  defineValidator "max" (fun arg => .now (jsGTnum arg n)) (.obj [("n", .num n)]) true none

/-- Built-in validator min (src/validators.ts): fails when arg < n. -/
def min (n : Int) : JSVal → MaybePromise JSVal :=
  defineValidator "min" (fun arg => .now (jsLTnum arg n)) (.obj [("n", .num n)]) true none

/-- combineTransformers (src/transformers.ts): pipe the transformers with
reduceAsync, each evaluate step feeding the accumulator to the next
transformer and each combine step replacing the accumulator with the
evaluated value. -/
def combineTransformers (transformers : List (JSVal → MaybePromise JSVal)) :
    JSVal → MaybePromise JSVal :=
  fun arg =>
    reduceAsync transformers
      (fun acc currentItem _ => currentItem acc)
      (fun _ currentValue _ => (currentValue, none))
      arg
      none

/-- combineTransformers built on the second snapshot's reduceAsync, for
comparing the two folds on the same pipeline. -/
def combineTransformersP004 (transformers : List (JSVal → MaybePromise JSVal)) :
    JSVal → MaybePromise JSVal :=
  fun arg =>
    reduceAsyncP004 transformers
      (fun acc currentItem _ => currentItem acc)
      (fun _ currentValue _ => (currentValue, none))
      arg
      none

/-- Built-in transformer trim (src/transformers.ts): trims a string
argument; the embedding leaves non-strings unchanged (never reached). -/
def trim : JSVal → MaybePromise JSVal
  | .str s => .now (.str (trimString s))
  | v => .now v

/-- Built-in transformer lowercase (src/transformers.ts). -/
def lowercase : JSVal → MaybePromise JSVal
  | .str s => .now (.str (lowerString s))
  | v => .now v

mutual
/-- Rule-tree entry as discriminated by the walker's type check: a leaf
value (function, array of functions, or any other non-object) or a nested
sub-tree. -/
inductive RVal (α : Type) where
  | leaf (a : α)
  | node (fields : RFields α)
/-- Ordered fields of a rule (sub-)tree, in definition order. -/
inductive RFields (α : Type) where
  | nil
  | cons (k : String) (v : RVal α) (rest : RFields α)
end

/-- Recursive loop of mapObjectHelper (src/utils.ts): iterate the keys of
the rule object in order.  A nested object recurses (unless pruned by
skipBranchCondition), starting its local resultObj from the seed's
corresponding entry, and merges a truthy branch result back; a leaf invokes
mapValue with the related value.  A pending leaf result is appended to the
pending list along with its access path; a synchronous one is dropped if
skipValueCondition accepts it, otherwise it either triggers the abort-early
throw (modelled as Except.error) when searchFor matches, or is assigned
into resultObj.  The recursive call on a sub-tree inlines mapObjectHelper,
whose whole body is this loop started at the sub-tree's seed. -/
def mapObjectFields {α : Type}
    (mapValue : α → JSVal → MaybePromise JSVal)
    (searchFor : Option (JSVal → Bool))
    (skipValueCondition : Option (JSVal → Bool))
    (skipBranchCondition : Option (RFields α → JSVal → Bool))
    (currentAccessKey : List String)
    (pending : List (List String × JSVal))
    (fields : RFields α)
    (initialValue relatedObj resultObj : JSVal) :
    Except JSVal (JSVal × List (List String × JSVal)) :=
  match fields with
  | .nil => .ok (resultObj, pending)
  | .cons key value rest =>
      let relatedValue := if jsTruthy relatedObj then getProp relatedObj key else relatedObj
      let accessKey := currentAccessKey ++ [key]
      match value with
      | .node children =>
          if (match skipBranchCondition with
              | some f => !(f children relatedValue)
              | none => true) then
            match mapObjectFields mapValue searchFor skipValueCondition skipBranchCondition
                accessKey pending children
                (if jsTruthy initialValue then getProp initialValue key else initialValue)
                relatedValue
                (if jsTruthy initialValue then getProp initialValue key else initialValue) with
            | .error e => .error e
            | .ok (branch, pending') =>
                mapObjectFields mapValue searchFor skipValueCondition skipBranchCondition
                  currentAccessKey pending' rest initialValue relatedObj
                  (if jsTruthy branch then
                    jsSet (if jsTruthy resultObj then resultObj else .obj []) key branch
                  else resultObj)
          else
            mapObjectFields mapValue searchFor skipValueCondition skipBranchCondition
              currentAccessKey pending rest initialValue relatedObj resultObj
      | .leaf a =>
          match mapValue a relatedValue with
          | .later v =>
              mapObjectFields mapValue searchFor skipValueCondition skipBranchCondition
                currentAccessKey (pending ++ [(accessKey, v)]) rest initialValue relatedObj resultObj
          | .now v =>
              if (match skipValueCondition with
                  | some p => !(p v)
                  | none => true) then
                match searchFor with
                | some sf =>
                    if sf v then .error (assignObjectAt (.obj []) accessKey v)
                    else
                      mapObjectFields mapValue searchFor skipValueCondition skipBranchCondition
                        currentAccessKey pending rest initialValue relatedObj resultObj
                | none =>
                    mapObjectFields mapValue searchFor skipValueCondition skipBranchCondition
                      currentAccessKey pending rest initialValue relatedObj
                      (jsSet (if jsTruthy resultObj then resultObj else .obj []) key v)
              else
                mapObjectFields mapValue searchFor skipValueCondition skipBranchCondition
                  currentAccessKey pending rest initialValue relatedObj resultObj

/-- mapObjectHelper (src/utils.ts): run the loop over the object's fields
with the local resultObj initialised to the seed. -/
def mapObjectHelper {α : Type}
    (mapValue : α → JSVal → MaybePromise JSVal)
    (searchFor : Option (JSVal → Bool))
    (skipValueCondition : Option (JSVal → Bool))
    (skipBranchCondition : Option (RFields α → JSVal → Bool))
    (currentAccessKey : List String)
    (pending : List (List String × JSVal))
    (obj : RFields α)
    (initialValue relatedObj : JSVal) :
    Except JSVal (JSVal × List (List String × JSVal)) :=
  mapObjectFields mapValue searchFor skipValueCondition skipBranchCondition
    currentAccessKey pending obj initialValue relatedObj initialValue

/-- Resolution phase of mapObject (src/utils.ts): once all collected
promises have settled, walk them in collection order; a value accepted by
skipValueCondition is dropped; otherwise, when searchFor is supplied the
source applies it to the whole resolved-values array (mappedValues) and on
success returns a fresh single-path tree, and when searchFor is absent the
value is assigned into resultObj at its recorded path. -/
def mapObjectResolve (searchFor : Option (JSVal → Bool))
    (skipValueCondition : Option (JSVal → Bool))
    (mappedValuesAll : List JSVal) :
    List (List String × JSVal) → JSVal → JSVal
  | [], resultObj => resultObj
  | (accessKey, mappedValue) :: rest, resultObj =>
      if (match skipValueCondition with
          | some p => !(p mappedValue)
          | none => true) then
        match searchFor with
        | some sf =>
            if sf (.arr mappedValuesAll) then assignObjectAt (.obj []) accessKey mappedValue
            else mapObjectResolve searchFor skipValueCondition mappedValuesAll rest resultObj
        | none =>
            mapObjectResolve searchFor skipValueCondition mappedValuesAll rest
              (assignObjectAt (if jsTruthy resultObj then resultObj else .obj []) accessKey mappedValue)
      else mapObjectResolve searchFor skipValueCondition mappedValuesAll rest resultObj

/-- mapObject (src/utils.ts): run the synchronous pass; an abort-early
throw is caught and its single-path tree returned synchronously; otherwise
the result is synchronous when no promises were collected and deferred
(running the resolution phase) when some were. -/
def mapObject {α : Type} (obj : RFields α)
    (mapValue : α → JSVal → MaybePromise JSVal)
    (initialValue relatedObj : JSVal)
    (searchFor skipValueCondition : Option (JSVal → Bool))
    (skipBranchCondition : Option (RFields α → JSVal → Bool)) : MaybePromise JSVal :=
  match mapObjectHelper mapValue searchFor skipValueCondition skipBranchCondition
      [] [] obj initialValue relatedObj with
  | .error e => .now e
  | .ok (resultObj, pending) =>
      if pending.isEmpty then .now resultObj
      else .later (mapObjectResolve searchFor skipValueCondition
        (pending.map (fun p => p.2)) pending resultObj)

/-- Rule-tree leaf as dispatched by findErrors and applyTransforms: a
single function, an array of functions, or any other value (a configuration
fault, passed through unchanged by the source's mapValue). -/
inductive JSLeaf where
  | fn (f : JSVal → MaybePromise JSVal)
  | arrOf (fs : List (JSVal → MaybePromise JSVal))
  | other (v : JSVal)

/-- findErrors (src/index.ts, latest snapshot): walk the validator tree
against args, combining a leaf array with andValidators (abortEarly
defaulted to true, no override error), skipping undefined results,
pruning branches whose related value is falsy, and searching for the first
non-undefined result exactly when abortEarly is set. -/
def findErrors (args : JSVal) (validatorTree : RFields JSLeaf)
    (abortEarly : Bool) : MaybePromise JSVal :=
  mapObject validatorTree
    (fun value arg =>
      match value with
      | .arrOf fs => andValidators fs true none arg
      | .fn f => f arg
      | .other v => .now v)
    .null args
    (if abortEarly then some (fun mappedValue => !(isUndefined mappedValue)) else none)
    (some isUndefined)
    (some (fun _ relatedValue => !(jsTruthy relatedValue)))

/-- applyTransforms (src/index.ts): walk the transformer tree against args,
combining a leaf array with combineTransformers, seeding the result with
args itself (both initialValue and relatedObj are args) and pruning
branches whose related value is falsy. -/
def applyTransforms (args : JSVal) (transformerTree : RFields JSLeaf) : MaybePromise JSVal :=
  mapObject transformerTree
    (fun value arg =>
      match value with
      | .arrOf fs => combineTransformers fs arg
      | .fn f => f arg
      | .other v => .now v)
    args args
    none none
    (some (fun _ relatedValue => !(jsTruthy relatedValue)))

/-- Observable outcome of one invocation of the plugin's field-resolution
middleware: either onValidationError was invoked exactly once with the
error tree and the next resolver stage was not called, or the next stage
was called with the given args. -/
inductive ResolverOutcome where
  | validationFailed (errorsTree : JSVal)
  | proceeded (args : JSVal)

/-- Field-resolution middleware installed by onCreateFieldResolver
(src/index.ts): falsy args proceed unchanged without transform or
validation; otherwise transform (when configured) produces the transformed
args, then validation (when configured) either reports a truthy error tree
once or lets the call proceed with the transformed args. -/
def fieldResolver (transformTree : Option (RFields JSLeaf))
    (validateTree : Option (RFields JSLeaf))
    (abortEarly : Bool) (args : JSVal) : ResolverOutcome :=
  if !(jsTruthy args) then .proceeded args
  else
    let transformedArgs :=
      match transformTree with
      | some tt => (applyTransforms args tt).resolve
      | none => args
    match validateTree with
    | some vt =>
        let errorsTree := (findErrors transformedArgs vt abortEarly).resolve
        if jsTruthy errorsTree then .validationFailed errorsTree
        else .proceeded transformedArgs
    | none => .proceeded transformedArgs

/-- Heap values for the reference-semantics model of the walker: a
primitive JavaScript value, a reference to a heap-allocated object, or the
transient array of resolved values handed to searchFor in the resolution
phase. -/
inductive HVal where
  | prim (v : JSVal)
  | ref (a : Nat)
  | arrv (elems : List HVal)

instance : JSUndefined HVal := ⟨.prim .undefined⟩

/-- Fields of one heap-allocated object. -/
abbrev HFields := List (String × HVal)

/-- Heap of allocated objects, addressed by position. -/
abbrev Heap := List HFields

/-- Truthiness of a heap value: object references are always truthy. -/
def hTruthy : HVal → Bool
  | .prim v => jsTruthy v
  | .ref _ => true
  | .arrv _ => true

/-- Fields stored at an address. -/
def heapGet (h : Heap) (a : Nat) : HFields := h.getD a []

/-- Overwrite the fields stored at an address. -/
def heapSet (h : Heap) (a : Nat) (o : HFields) : Heap := h.set a o

/-- Replace the binding of k (keeping its position) or append it. -/
def setHFields (fields : HFields) (k : String) (v : HVal) : HFields :=
  match fields with
  | [] => [(k, v)]
  | (k', v') :: rest => if k' = k then (k, v) :: rest else (k', v') :: setHFields rest k v

/-- Property read `o[k]` through the heap. -/
def hGetField (h : Heap) (v : HVal) (k : String) : HVal :=
  match v with
  | .ref a => (((heapGet h a).find? (fun p => p.1 = k)).map (fun p => p.2)).getD (.prim .undefined)
  | _ => .prim .undefined

/-- Property write `o[k] = x` through the heap; dropped on non-references
(never reached by the embedded runs). -/
def hSetField (h : Heap) (v : HVal) (k : String) (x : HVal) : Heap :=
  match v with
  | .ref a => heapSet h a (setHFields (heapGet h a) k x)
  | _ => h

/-- Allocate a fresh empty object, returning the new heap and a reference. -/
def hAlloc (h : Heap) : Heap × HVal := (h ++ [[]], .ref h.length)

/-- assignObjectAt (src/utils.ts) under reference semantics: navigate from
cur along the access path, materialising falsy intermediate entries as
fresh objects linked into the heap, and write the value at the final key. -/
def assignObjectAtH (h : Heap) (cur : HVal) (accessKey : List String) (value : HVal) : Heap :=
  match accessKey with
  | [] => h
  | [k] => hSetField h cur k value
  | k :: rest =>
      let child := hGetField h cur k
      if hTruthy child then assignObjectAtH h child rest value
      else
        let alloc := hAlloc h
        assignObjectAtH (hSetField alloc.1 cur k alloc.2) alloc.2 rest value

/-- Recursive loop of mapObjectHelper under reference semantics, threading
the heap: identical control flow to mapObjectFields, but resultObj is a
heap value, so an assignment into a seeded resultObj mutates the seed's
heap cell in place.  Used to settle the frame claim about mutation. -/
def mapObjectFieldsH {α : Type}
    (mapValue : α → HVal → MaybePromise HVal)
    (searchFor : Option (HVal → Bool))
    (skipValueCondition : Option (HVal → Bool))
    (skipBranchCondition : Option (RFields α → HVal → Bool))
    (currentAccessKey : List String)
    (h : Heap) (pending : List (List String × HVal))
    (fields : RFields α)
    (initialValue relatedObj resultObj : HVal) :
    Except (Heap × HVal) (Heap × HVal × List (List String × HVal)) :=
  match fields with
  | .nil => .ok (h, resultObj, pending)
  | .cons key value rest =>
      let relatedValue := if hTruthy relatedObj then hGetField h relatedObj key else relatedObj
      let accessKey := currentAccessKey ++ [key]
      match value with
      | .node children =>
          if (match skipBranchCondition with
              | some f => !(f children relatedValue)
              | none => true) then
            match mapObjectFieldsH mapValue searchFor skipValueCondition skipBranchCondition
                accessKey h pending children
                (if hTruthy initialValue then hGetField h initialValue key else initialValue)
                relatedValue
                (if hTruthy initialValue then hGetField h initialValue key else initialValue) with
            | .error e => .error e
            | .ok (h', branch, pending') =>
                if hTruthy branch then
                  match (if hTruthy resultObj then (h', resultObj) else hAlloc h') with
                  | (h2, r2) =>
                      mapObjectFieldsH mapValue searchFor skipValueCondition skipBranchCondition
                        currentAccessKey (hSetField h2 r2 key branch) pending' rest
                        initialValue relatedObj r2
                else
                  mapObjectFieldsH mapValue searchFor skipValueCondition skipBranchCondition
                    currentAccessKey h' pending' rest initialValue relatedObj resultObj
          else
            mapObjectFieldsH mapValue searchFor skipValueCondition skipBranchCondition
              currentAccessKey h pending rest initialValue relatedObj resultObj
      | .leaf a =>
          match mapValue a relatedValue with
          | .later v =>
              mapObjectFieldsH mapValue searchFor skipValueCondition skipBranchCondition
                currentAccessKey h (pending ++ [(accessKey, v)]) rest initialValue relatedObj resultObj
          | .now v =>
              if (match skipValueCondition with
                  | some p => !(p v)
                  | none => true) then
                match searchFor with
                | some sf =>
                    if sf v then
                      match hAlloc h with
                      | (h1, fresh) => .error (assignObjectAtH h1 fresh accessKey v, fresh)
                    else
                      mapObjectFieldsH mapValue searchFor skipValueCondition skipBranchCondition
                        currentAccessKey h pending rest initialValue relatedObj resultObj
                | none =>
                    match (if hTruthy resultObj then (h, resultObj) else hAlloc h) with
                    | (h1, r1) =>
                        mapObjectFieldsH mapValue searchFor skipValueCondition skipBranchCondition
                          currentAccessKey (hSetField h1 r1 key v) pending rest
                          initialValue relatedObj r1
              else
                mapObjectFieldsH mapValue searchFor skipValueCondition skipBranchCondition
                  currentAccessKey h pending rest initialValue relatedObj resultObj

/-- Resolution phase of mapObject under reference semantics. -/
def mapObjectResolveH (searchFor : Option (HVal → Bool))
    (skipValueCondition : Option (HVal → Bool))
    (mappedValuesAll : List HVal) :
    List (List String × HVal) → Heap → HVal → Heap × HVal
  | [], h, resultObj => (h, resultObj)
  | (accessKey, mappedValue) :: rest, h, resultObj =>
      if (match skipValueCondition with
          | some p => !(p mappedValue)
          | none => true) then
        match searchFor with
        | some sf =>
            if sf (.arrv mappedValuesAll) then
              match hAlloc h with
              | (h1, fresh) => (assignObjectAtH h1 fresh accessKey mappedValue, fresh)
            else mapObjectResolveH searchFor skipValueCondition mappedValuesAll rest h resultObj
        | none =>
            match (if hTruthy resultObj then (h, resultObj) else hAlloc h) with
            | (h1, r1) =>
                mapObjectResolveH searchFor skipValueCondition mappedValuesAll rest
                  (assignObjectAtH h1 r1 accessKey mappedValue) r1
      else mapObjectResolveH searchFor skipValueCondition mappedValuesAll rest h resultObj

/-- mapObject under reference semantics: returns the (possibly deferred)
result value together with the final heap. -/
def mapObjectH {α : Type} (obj : RFields α)
    (mapValue : α → HVal → MaybePromise HVal)
    (h : Heap) (initialValue relatedObj : HVal)
    (searchFor skipValueCondition : Option (HVal → Bool))
    (skipBranchCondition : Option (RFields α → HVal → Bool)) : MaybePromise HVal × Heap :=
  match mapObjectFieldsH mapValue searchFor skipValueCondition skipBranchCondition
      [] h [] obj initialValue relatedObj initialValue with
  | .error (h', tree) => (.now tree, h')
  | .ok (h', resultObj, pending) =>
      if pending.isEmpty then (.now resultObj, h')
      else
        match mapObjectResolveH searchFor skipValueCondition
            (pending.map (fun p => p.2)) pending h' resultObj with
        | (h2, r) => (.later r, h2)

/-- Transformer-tree leaf for the reference-semantics model. -/
inductive HLeaf where
  | fn (f : HVal → MaybePromise HVal)
  | arrOf (fs : List (HVal → MaybePromise HVal))
  | other (v : HVal)

/-- combineTransformers over heap values (same reduceAsync fold). -/
def combineTransformersH (transformers : List (HVal → MaybePromise HVal)) :
    HVal → MaybePromise HVal :=
  fun arg =>
    reduceAsync transformers
      (fun acc currentItem _ => currentItem acc)
      (fun _ currentValue _ => (currentValue, none))
      arg
      none

/-- applyTransforms (src/index.ts) under reference semantics: the walk is
seeded with the args reference itself, so assignments land in the args
object. -/
def applyTransformsH (h : Heap) (args : HVal) (transformerTree : RFields HLeaf) :
    MaybePromise HVal × Heap :=
  mapObjectH transformerTree
    (fun value arg =>
      match value with
      | .arrOf fs => combineTransformersH fs arg
      | .fn f => f arg
      | .other v => .now v)
    h args args
    none none
    (some (fun _ relatedValue => !(hTruthy relatedValue)))

/-- Transformed args computed by the middleware before validation:
applyTransforms when a transformer tree is configured, the original args
otherwise. -/
def middlewareTransformed (transformTree : Option (RFields JSLeaf)) (args : JSVal) : JSVal :=
  match transformTree with
  | some tt => (applyTransforms args tt).resolve
  | none => args

/-
Scenario data used by the theorems below.
-/

/-- Evaluate step of the repository's own reduceAsync test with the item 2
deferred: items map to themselves, item 2 through a resolved promise. -/
def evalItem2Deferred : JSVal → Int → Nat → MaybePromise JSVal :=
  fun _ currentItem _ =>
    if currentItem = 2 then .later (.num currentItem) else .now (.num currentItem)

/-- Same evaluate step with every item synchronous. -/
def evalItemSync : JSVal → Int → Nat → MaybePromise JSVal :=
  fun _ currentItem _ => .now (.num currentItem)

/-- Summing combine step of the repository's reduceAsync test. -/
def sumCallback : JSVal → JSVal → Nat → JSVal × Option JSVal :=
  fun acc currentValue _ => (jsAdd acc currentValue, none)

/-- Doubling finalizer, as in the repository's manipulateReturn test. -/
def doubleFinalize : JSVal → MaybePromise JSVal :=
  fun acc => .now (jsAdd acc acc)

/-- Rule tree of the findFirst scenario: two numeric leaves a and b. -/
def searchScenarioTree : RFields Int := .cons "a" (.leaf 1) (.cons "b" (.leaf 4) .nil)

/-- findFirst predicate looking for the value 8 (strict equality with 8). -/
def searchForEight : JSVal → Bool :=
  fun v => match v with | .num n => n = 8 | _ => false

/-- Doubling leaf map, synchronous. -/
def doubleLeafSync : Int → JSVal → MaybePromise JSVal :=
  fun v _ => .now (.num (2 * v))

/-- Doubling leaf map, deferred by one microtask. -/
def doubleLeafDeferred : Int → JSVal → MaybePromise JSVal :=
  fun v _ => .later (.num (2 * v))

/-- Validator mustStartWithA of the repository's findErrors test. -/
def mustStartWithA : JSVal → MaybePromise JSVal :=
  fun arg => .now (if !(jsStartsWith arg "a") then .arr [.str "must-start-with-a", .null] else .undefined)

/-- Validator mustEndWithD of the repository's findErrors test. -/
def mustEndWithD : JSVal → MaybePromise JSVal :=
  fun arg => .now (if !(jsEndsWith arg "d") then .arr [.str "must-end-with-d", .null] else .undefined)

/-- Validator mustBeOver18 of the repository's findErrors test. -/
def mustBeOver18 : JSVal → MaybePromise JSVal :=
  fun arg => .now (if jsLTnum arg 18 then .arr [.str "older-than-18", .null] else .undefined)

/-- Rule tree of the concrete validation scenario: firstName carries the
two-validator sequence, age the single validator, in that key order. -/
def scenarioValidatorTree : RFields JSLeaf :=
  .cons "firstName" (.leaf (.arrOf [mustStartWithA, mustEndWithD]))
    (.cons "age" (.leaf (.fn mustBeOver18)) .nil)

/-- Subject tree exactly as stated by the claim. -/
def scenarioArgsAhmed : JSVal := .obj [("firstName", .str "ahmed"), ("age", .num 15)]

/-- Subject tree of the repository's own test (firstName fails
mustEndWithD). -/
def scenarioArgsAhmedb : JSVal := .obj [("firstName", .str "ahmedb"), ("age", .num 15)]

/-- Error tree the claim asserts for the abortEarly=false walk. -/
def scenarioClaimedTree : JSVal :=
  .obj [("firstName", .arr [.str "must-end-with-d", .null]),
        ("age", .arr [.str "older-than-18", .null])]

/-- Heap cell 0 of the transformation scenario (the args object of the
repository's applyTransforms test); its profile field references cell 1. -/
def scenarioRootFields : HFields :=
  [("firstName", .prim (.str "ahmed")), ("lastName", .prim (.str "osama")),
   ("age", .prim (.num 20)), ("profile", .ref 1), ("job", .prim (.str "developer"))]

/-- Initial heap of the transformation scenario. -/
def scenarioHeap : Heap := [scenarioRootFields, [("bio", .prim (.str "Hi there"))]]

/-- Transformer appending " hello" to a string (repository test). -/
def appendHello : HVal → MaybePromise HVal :=
  fun v => .now (match v with | .prim (.str s) => .prim (.str (s ++ " hello")) | x => x)

/-- Transformer subtracting 2 from a number (repository test). -/
def subtractTwo : HVal → MaybePromise HVal :=
  fun v => .now (match v with | .prim (.num n) => .prim (.num (n - 2)) | x => x)

/-- Transformer replacing the bio with a constant (repository test). -/
def newBio : HVal → MaybePromise HVal :=
  fun _ => .now (.prim (.str "new bio"))

/-- Transformer tree of the transformation scenario. -/
def scenarioTransformerTree : RFields HLeaf :=
  .cons "firstName" (.leaf (.fn appendHello))
    (.cons "age" (.leaf (.fn subtractTwo))
      (.cons "profile" (.node (.cons "bio" (.leaf (.fn newBio)) .nil)) .nil))

/-- Heap cell 0 after the transformation scenario. -/
def scenarioRootFieldsAfter : HFields :=
  [("firstName", .prim (.str "ahmed hello")), ("lastName", .prim (.str "osama")),
   ("age", .prim (.num 18)), ("profile", .ref 1), ("job", .prim (.str "developer"))]

/-- Final heap of the transformation scenario: the args cells updated in
place to the transformed values. -/
def scenarioHeapAfter : Heap := [scenarioRootFieldsAfter, [("bio", .prim (.str "new bio"))]]

/-- Failing validator returning a fixed error (for witnesses). -/
def alwaysE1 : JSVal → MaybePromise JSVal := fun _ => .now (.arr [.str "f1-error", .null])

/-- Second failing validator returning a fixed error (for witnesses). -/
def alwaysE2 : JSVal → MaybePromise JSVal := fun _ => .now (.arr [.str "f2-error", .null])

/-- Passing validator (for witnesses). -/
def alwaysPass : JSVal → MaybePromise JSVal := fun _ => .now .undefined

/-- Value-level transformer tree trimming firstName (for witnesses). -/
def scenarioTransformerTreeJS : RFields JSLeaf :=
  .cons "firstName" (.leaf (.fn trim)) .nil

/-
Theorems.
-/

/-- C1: on the repository's own reduceAsync test input (items 1,2,3,
summing combine, initial accumulator 4, item 2 deferred) the all-
synchronous run returns 10, but the shipped fold resolves to NaN: the
deferred branch stores the remaining evaluate results at position j-i-1,
overwriting the first pending result, while replaying from position j-i.
The second snapshot's fold resolves to 10 on the same input, yet even it
drops the finalizer on the deferred path, as the last two conjuncts show
on a one-item fold with a doubling finalizer. -/
theorem reduceAsync_deferred_diverges_from_sync :
    reduceAsync ([1, 2, 3] : List Int) evalItemSync sumCallback (.num 4) none
      = .now (.num 10)
    ∧ reduceAsync ([1, 2, 3] : List Int) evalItem2Deferred sumCallback (.num 4) none
      = .later .nan
    ∧ reduceAsyncP004 ([1, 2, 3] : List Int) evalItem2Deferred sumCallback (.num 4) none
      = .later (.num 10)
    ∧ reduceAsyncP004 ([1] : List Int) evalItemSync sumCallback (.num 4) (some doubleFinalize)
      = .now (.num 10)
    ∧ reduceAsyncP004 ([1] : List Int) (fun _ ci _ => .later (.num ci)) sumCallback (.num 4)
        (some doubleFinalize)
      = .later (.num 5) :=
  ⟨rfl, rfl, rfl, rfl, rfl⟩

/-- C2: walking the two-leaf tree with findFirst looking for the value 8,
the synchronous walk returns the single-path tree containing b, but the
walk with every leaf deferred by one microtask resolves to the absence
marker: the resolution phase applies searchFor to the whole resolved-values
array instead of each resolved value, so the predicate never matches. -/
theorem mapObject_searchFor_deferred_diverges :
    mapObject searchScenarioTree doubleLeafSync .null .null (some searchForEight) none none
      = .now (.obj [("b", .num 8)])
    ∧ mapObject searchScenarioTree doubleLeafDeferred .null .null (some searchForEight) none none
      = .later .null
    ∧ (JSVal.null ≠ .obj [("b", .num 8)]) :=
  ⟨rfl, rfl, by simp⟩

/-- C3 counterexample: under reference semantics, applyTransforms on the
repository's own test input returns the very args reference it was given
(the transformed tree is not a distinct new mapping) and the heap cell
holding the args mapping is mutated (the input args mapping is not
unchanged). -/
theorem applyTransforms_aliases_args :
    (applyTransformsH scenarioHeap (.ref 0) scenarioTransformerTree).1 = .now (.ref 0)
    ∧ (applyTransformsH scenarioHeap (.ref 0) scenarioTransformerTree).2 ≠ scenarioHeap := by
  constructor
  · rfl
  · rw [show (applyTransformsH scenarioHeap (.ref 0) scenarioTransformerTree).2
        = scenarioHeapAfter from rfl]
    simp [scenarioHeapAfter, scenarioHeap, scenarioRootFieldsAfter, scenarioRootFields]

/-- C3 amended: applyTransforms transforms the args mapping in place: it
returns the args reference itself and leaves the heap holding the
transformed values in the args cells (exactly the values the repository's
test expects), the nested profile entry updated through the same shared
reference. -/
theorem applyTransforms_in_place :
    applyTransformsH scenarioHeap (.ref 0) scenarioTransformerTree
      = (.now (.ref 0), scenarioHeapAfter) :=
  rfl

/-- C4: piping trim then lowercase over "  AhMeD  " yields "ahmed" when
both steps are synchronous, but when trim returns its value deferred the
shipped fold resolves to undefined and even the second snapshot's fold
resolves to "  ahmed  ": the remaining transformers are dispatched eagerly
with the pre-trim accumulator, so the result depends on which step
deferred. -/
theorem combineTransformers_deferred_pipe_breaks :
    combineTransformers [trim, lowercase] (.str "  AhMeD  ") = .now (.str "ahmed")
    ∧ combineTransformers [deferOne trim, lowercase] (.str "  AhMeD  ") = .later .undefined
    ∧ combineTransformersP004 [deferOne trim, lowercase] (.str "  AhMeD  ")
      = .later (.str "  ahmed  ")
    ∧ (JSVal.str "  ahmed  " ≠ .str "ahmed") :=
  ⟨rfl, rfl, rfl, by simp⟩

/-- C5 counterexample: on the subject tree stated by the claim the
firstName value "ahmed" does start with "a" and end with "d", so both
firstName validators pass and the abortEarly=false error tree holds only
the age entry, not the claimed two-entry tree. -/
theorem findErrors_scenario_firstName_passes :
    findErrors scenarioArgsAhmed scenarioValidatorTree false ≠ .now scenarioClaimedTree := by
  rw [show findErrors scenarioArgsAhmed scenarioValidatorTree false
      = .now (.obj [("age", .arr [.str "older-than-18", .null])]) from rfl]
  simp [scenarioClaimedTree]

/-- C5 amended: with the subject tree of the repository's own test
(firstName "ahmedb", age 15), abortEarly=false yields exactly the claimed
two-entry error tree in key order, and abortEarly=true yields exactly the
firstName entry, the first failing key in key order. -/
theorem findErrors_scenario_amended :
    findErrors scenarioArgsAhmedb scenarioValidatorTree false = .now scenarioClaimedTree
    ∧ findErrors scenarioArgsAhmedb scenarioValidatorTree true
      = .now (.obj [("firstName", .arr [.str "must-end-with-d", .null])]) :=
  ⟨rfl, rfl⟩

/-- C6 counterexample: the OR combinator over the validators min 5 and
max 10 applied to 20 returns the no-error marker undefined, because min 5
passes at 20 and the combinator early-exits with no error the moment one
validator passes; it does not return the combined failures. -/
theorem orValidators_at_20_passes :
    orValidators [min 5, max 10] none (.num 20) = .now .undefined
    ∧ ((.now JSVal.undefined : MaybePromise JSVal)
        ≠ .now (.arr [minError 5, maxError 10])) :=
  ⟨rfl, by simp [minError, maxError]⟩

/-- C6 amended: or over min 5 and max 10 applied to 7 returns the no-error
marker, and applied to 20 it also returns the no-error marker since min 5
passes at 20; the collected failure sequence appears only when every
validator fails, as with min 25 and max 10 applied to 20, which returns
both failures in order. -/
theorem orValidators_amended :
    orValidators [min 5, max 10] none (.num 7) = .now .undefined
    ∧ orValidators [min 5, max 10] none (.num 20) = .now .undefined
    ∧ orValidators [min 25, max 10] none (.num 20)
      = .now (.arr [minError 25, maxError 10]) :=
  ⟨rfl, rfl, rfl⟩

/-- C7: for any three synchronous validators where the input fails the
first two (results loosely unequal to undefined) and passes the third, the
AND combinator with abortEarly returns exactly the first validator's error,
and with abortEarly=false it returns the sequence of the first two errors
in order. -/
theorem andValidators_short_circuit
    (f1 f2 f3 : JSVal → MaybePromise JSVal) (x e1 e2 : JSVal)
    (h1 : f1 x = .now e1) (hL1 : jsLooseUndefined e1 = false)
    (h2 : f2 x = .now e2) (hL2 : jsLooseUndefined e2 = false)
    (h3 : f3 x = .now .undefined) :
    andValidators [f1, f2, f3] true none x = .now e1
    ∧ andValidators [f1, f2, f3] false none x = .now (.arr [e1, e2]) := by
  constructor
  · simp [andValidators, reduceAsync, reduceAsyncLoop, h1, hL1, errOr]
  · simp [andValidators, reduceAsync, reduceAsyncLoop, h1, h2, h3, hL1, hL2,
      errOr, jsPush, jsArrLen]
    simp [jsLooseUndefined]

/-- Witness for C7 at three concrete validators and the argument 0. -/
theorem andValidators_short_circuit_witness :
    andValidators [alwaysE1, alwaysE2, alwaysPass] true none (.num 0)
      = .now (.arr [.str "f1-error", .null])
    ∧ andValidators [alwaysE1, alwaysE2, alwaysPass] false none (.num 0)
      = .now (.arr [.arr [.str "f1-error", .null], .arr [.str "f2-error", .null]]) :=
  andValidators_short_circuit alwaysE1 alwaysE2 alwaysPass (.num 0)
    (.arr [.str "f1-error", .null]) (.arr [.str "f2-error", .null])
    rfl rfl rfl rfl rfl

/-- C9: per invocation of the plugin's field-resolution middleware, a
truthy (non-empty) error tree from validation makes the middleware report
exactly that tree through onValidationError without calling the next
stage; a falsy error tree lets the call proceed with the transformed args;
and falsy (absent) args proceed unchanged with neither transform nor
validation run, whatever trees are configured. -/
theorem fieldResolver_per_call (tt : Option (RFields JSLeaf)) (vtree : RFields JSLeaf)
    (ab : Bool) (args e : JSVal) :
    (jsTruthy args = true →
      (findErrors (middlewareTransformed tt args) vtree ab).resolve = e →
      jsTruthy e = true →
      fieldResolver tt (some vtree) ab args = .validationFailed e)
    ∧ (jsTruthy args = true →
      (findErrors (middlewareTransformed tt args) vtree ab).resolve = e →
      jsTruthy e = false →
      fieldResolver tt (some vtree) ab args = .proceeded (middlewareTransformed tt args))
    ∧ (jsTruthy args = false →
      ∀ (tt2 vt2 : Option (RFields JSLeaf)), fieldResolver tt2 vt2 ab args = .proceeded args) := by
  refine ⟨?_, ?_, ?_⟩
  · intro hArgs hFind hTr
    simp [fieldResolver, hArgs, middlewareTransformed] at hFind ⊢
    cases tt <;> simp_all [middlewareTransformed]
  · intro hArgs hFind hTr
    cases tt <;> simp_all [fieldResolver, middlewareTransformed]
  · intro hArgs tt2 vt2
    cases vt2 <;> simp [fieldResolver, hArgs]

/-- Witness for C9: a failing validation reports its error tree, the same
tree with a passing subject proceeds, and absent args proceed unchanged. -/
theorem fieldResolver_per_call_witness :
    fieldResolver none (some scenarioValidatorTree) false scenarioArgsAhmed
      = .validationFailed (.obj [("age", .arr [.str "older-than-18", .null])])
    ∧ fieldResolver none (some scenarioValidatorTree) false
        (.obj [("firstName", .str "ahmed"), ("age", .num 20)])
      = .proceeded (.obj [("firstName", .str "ahmed"), ("age", .num 20)])
    ∧ fieldResolver (some scenarioTransformerTreeJS) (some scenarioValidatorTree) false .undefined
      = .proceeded .undefined :=
  ⟨(fieldResolver_per_call none scenarioValidatorTree false scenarioArgsAhmed
      (.obj [("age", .arr [.str "older-than-18", .null])])).1 rfl rfl rfl,
   (fieldResolver_per_call none scenarioValidatorTree false
      (.obj [("firstName", .str "ahmed"), ("age", .num 20)]) .null).2.1 rfl rfl rfl,
   (fieldResolver_per_call none scenarioValidatorTree false .undefined .null).2.2 rfl
      (some scenarioTransformerTreeJS) (some scenarioValidatorTree)⟩

/-- C10: the built-in validator max n fails with the error pair made of the
code "max" and the extras object holding n exactly when a numeric argument
exceeds n (so an argument equal to n passes), null and undefined arguments
pass, and min n is symmetric, failing exactly below n; moreover under the
default nullability strategy any validator defined with defineValidator
passes null and undefined without consulting its predicate, whatever the
predicate is. -/
theorem max_min_validator_spec (n v : Int) :
    max n (.num v) = .now (if n < v then maxError n else .undefined)
    ∧ max n (.num n) = .now .undefined
    ∧ max n .null = .now .undefined
    ∧ max n .undefined = .now .undefined
    ∧ min n (.num v) = .now (if v < n then minError n else .undefined)
    ∧ min n .null = .now .undefined
    ∧ min n .undefined = .now .undefined
    ∧ (∀ (cond : JSVal → MaybePromise Bool) (code : String) (extras : JSVal) (tec : Bool),
        defineValidator code cond extras tec none .null = .now .undefined
        ∧ defineValidator code cond extras tec none .undefined = .now .undefined) := by
  refine ⟨?_, ?_, rfl, rfl, ?_, rfl, rfl, fun _ _ _ _ => ⟨rfl, rfl⟩⟩
  · by_cases h : n < v <;>
      simp [max, defineValidator, defineValidatorCheck, mpCondTruthy, jsGTnum, maxError, h]
  · simp [max, defineValidator, defineValidatorCheck, mpCondTruthy, jsGTnum]
  · by_cases h : v < n <;>
      simp [min, defineValidator, defineValidatorCheck, mpCondTruthy, jsLTnum, minError, h]

/-- Replacing the first binding of a key by the very value found there
leaves the field list unchanged. -/
theorem setFields_find_self (fs : List (String × JSVal)) (k : String) (pr : String × JSVal)
    (h : fs.find? (fun p => p.1 = k) = some pr) : setFields fs k pr.2 = fs := by
  induction fs with
  | nil => simp at h
  | cons hd tl ih =>
    obtain ⟨k', v'⟩ := hd
    by_cases hk : k' = k
    · subst hk
      rw [List.find?_cons_of_pos _ (by simp)] at h
      cases h
      simp [setFields]
    · rw [List.find?_cons_of_neg _ (by simpa using hk)] at h
      simp [setFields, hk, ih h]

/-- Writing back the truthy value read at a key leaves the object
unchanged (including the walker's falsy-to-empty-object coercion). -/
theorem jsSet_getProp_self (o : JSVal) (k : String)
    (h : jsTruthy (getProp o k) = true) :
    jsSet (if jsTruthy o then o else .obj []) k (getProp o k) = o := by
  cases o with
  | obj fs =>
    rw [if_pos (show jsTruthy (JSVal.obj fs) = true from rfl)]
    cases hf : fs.find? (fun p => p.1 = k) with
    | none => simp [getProp, hf, jsTruthy] at h
    | some pr =>
      simp only [getProp, hf, Option.map_some', Option.getD_some]
      simp [jsSet, setFields_find_self fs k pr hf]
  | undefined => simp [getProp, jsTruthy] at h
  | null => simp [getProp, jsTruthy] at h
  | nan => simp [getProp, jsTruthy] at h
  | bool b => simp [getProp, jsTruthy] at h
  | num n => simp [getProp, jsTruthy] at h
  | str s => simp [getProp, jsTruthy] at h
  | arr elems => simp [getProp, jsTruthy] at h

/-- When every collected value is accepted by the skip condition, the
resolution phase leaves resultObj untouched. -/
theorem mapObjectResolve_all_skipped (sf : Option (JSVal → Bool)) (skipP : JSVal → Bool)
    (allVals : List JSVal) (items : List (List String × JSVal)) (r : JSVal)
    (hp : ∀ x ∈ items, skipP x.2 = true) :
    mapObjectResolve sf (some skipP) allVals items r = r := by
  induction items generalizing r with
  | nil => rfl
  | cons hd tl ih =>
    obtain ⟨accessKey, mappedValue⟩ := hd
    have hskip : skipP mappedValue = true := hp (accessKey, mappedValue) (List.mem_cons_self _ _)
    simp only [mapObjectResolve, hskip, Bool.not_true, Bool.false_eq_true, if_false]
    exact ih r (fun x hx => hp x (List.mem_cons_of_mem _ hx))

/-- When the skip condition accepts every mapped leaf value, the
synchronous pass returns its seed unchanged, never aborts, and every
collected pending value is itself accepted by the skip condition. -/
theorem mapObjectFields_all_skipped {α : Type}
    (mv : α → JSVal → MaybePromise JSVal)
    (sf : Option (JSVal → Bool)) (skipP : JSVal → Bool)
    (sb : Option (RFields α → JSVal → Bool))
    (H : ∀ (a : α) (rv : JSVal), skipP ((mv a rv).resolve) = true)
    (fields : RFields α) :
    ∀ (accKey : List String) (pending : List (List String × JSVal)) (iv rel : JSVal),
      (∀ x ∈ pending, skipP x.2 = true) →
      ∃ pending', mapObjectFields mv sf (some skipP) sb accKey pending fields iv rel iv
          = .ok (iv, pending')
        ∧ ∀ x ∈ pending', skipP x.2 = true := by
  match fields with
  | .nil =>
    intro accKey pending iv rel hp
    exact ⟨pending, rfl, hp⟩
  | .cons key value rest =>
    intro accKey pending iv rel hp
    match value with
    | .leaf a =>
      rw [mapObjectFields.eq_def]
      simp only []
      cases hmv : mv a (if jsTruthy rel then getProp rel key else rel) with
      | later v =>
        have hv : skipP v = true := by
          have hh := H a (if jsTruthy rel then getProp rel key else rel)
          rwa [hmv] at hh
        exact mapObjectFields_all_skipped mv sf skipP sb H rest accKey
          (pending ++ [(accKey ++ [key], v)]) iv rel
          (by intro x hx
              rcases List.mem_append.1 hx with hx | hx
              · exact hp x hx
              · simp at hx; rw [hx]; exact hv)
      | now v =>
        have hv : skipP v = true := by
          have hh := H a (if jsTruthy rel then getProp rel key else rel)
          rwa [hmv] at hh
        simp only [hv, Bool.not_true, Bool.false_eq_true, if_false]
        exact mapObjectFields_all_skipped mv sf skipP sb H rest accKey pending iv rel hp
    | .node children =>
      rw [mapObjectFields.eq_def]
      simp only []
      cases hpr : (match sb with
          | some f => !(f children (if jsTruthy rel then getProp rel key else rel))
          | none => true) with
      | false =>
        simp only [hpr, Bool.false_eq_true, if_false]
        exact mapObjectFields_all_skipped mv sf skipP sb H rest accKey pending iv rel hp
      | true =>
        simp only [hpr, if_true]
        obtain ⟨pending', heq, hinv⟩ := mapObjectFields_all_skipped mv sf skipP sb H children
          (accKey ++ [key]) pending
          (if jsTruthy iv then getProp iv key else iv)
          (if jsTruthy rel then getProp rel key else rel) hp
        rw [heq]
        simp only []
        have hres : (if jsTruthy (if jsTruthy iv then getProp iv key else iv) then
            jsSet (if jsTruthy iv then iv else .obj []) key
              (if jsTruthy iv then getProp iv key else iv)
          else iv) = iv := by
          cases hiv : jsTruthy iv with
          | true =>
            simp only [hiv, if_true]
            cases hgp : jsTruthy (getProp iv key) with
            | true =>
              simp only [hgp, if_true]
              have hs := jsSet_getProp_self iv key hgp
              rwa [if_pos hiv] at hs
            | false => simp [hgp]
          | false => simp [hiv]
        rw [hres]
        exact mapObjectFields_all_skipped mv sf skipP sb H rest accKey pending' iv rel hinv

/-- C8: a walk in which the skip condition accepts every mapped leaf value
anywhere (keepResult keeps nothing) resolves to exactly its initialValue:
the absence marker null when no seed was supplied, and the seed itself,
unmodified, when one was; never an empty mapping.  This holds for every
rule tree, related tree, searchFor and branch-pruning configuration, and
whether leaves settle synchronously or deferred. -/
theorem mapObject_sparse_result_law {α : Type} (obj : RFields α)
    (mv : α → JSVal → MaybePromise JSVal) (iv rel : JSVal)
    (sf : Option (JSVal → Bool)) (skipP : JSVal → Bool)
    (sb : Option (RFields α → JSVal → Bool))
    (H : ∀ (a : α) (rv : JSVal), skipP ((mv a rv).resolve) = true) :
    (mapObject obj mv iv rel sf (some skipP) sb).resolve = iv := by
  obtain ⟨pending', heq, hinv⟩ := mapObjectFields_all_skipped mv sf skipP sb H obj [] [] iv rel
    (by intro x hx; simp at hx)
  rw [mapObject, mapObjectHelper, heq]
  by_cases hemp : pending'.isEmpty
  · simp [hemp, MaybePromise.resolve]
  · simp only [hemp, Bool.false_eq_true, if_false, MaybePromise.resolve]
    exact mapObjectResolve_all_skipped sf skipP _ pending' iv hinv

/-- Witness for C8: a two-leaf walk whose skip condition accepts everything
resolves to null without a seed (synchronous leaves) and to the untouched
seed with one (deferred leaves). -/
theorem mapObject_sparse_result_law_witness :
    (mapObject searchScenarioTree (fun v _ => .now (.num v)) .null .null
        none (some (fun _ => true)) none).resolve = .null
    ∧ (mapObject searchScenarioTree (fun v _ => .later (.num v)) (.obj [("r", .num 8)]) .null
        none (some (fun _ => true)) none).resolve = .obj [("r", .num 8)] :=
  ⟨mapObject_sparse_result_law searchScenarioTree (fun v _ => .now (.num v)) .null .null
      none (fun _ => true) none (fun _ _ => rfl),
   mapObject_sparse_result_law searchScenarioTree (fun v _ => .later (.num v))
      (.obj [("r", .num 8)]) .null none (fun _ => true) none (fun _ _ => rfl)⟩

end NexusArgsValidator
